import Mathlib

/-!
# dtoForge — verification of the schema→IR walker and the Zod code generator

Shallow embedding of the dtoForge pipeline:

* the schema walker of `main.go` (`convertSchemaToGeneratorDTO`,
  `convertSchemaToGeneratorProperty`, `extractRefName`),
* the IR type model of `internal/generator` (`IRType`, `DTO`, `Property`),
* the Zod dialect (`zod` package): `CustomTypeRegistry`, `GetAllImports`,
  `LoadFromConfig`, `toZodType`, `sortDTOsByDependency`, `generatePackageJSON`
  and the `Generate` driver.

Raw YAML nodes (`map[string]interface{}` after yaml.v3 decoding) are modelled
as finite trees; a Go map is an association list whose list order stands for
the (unspecified) map iteration order.  Go interface values that may be nil
(`generator.IRType` fields) are modelled as `Option`.  Machine integers play
no role in this code path.
-/

namespace DtoForge

/-- A decoded YAML value as produced by yaml.v3 into `interface{}`:
strings, booleans, numbers, sequences, mappings, null.  A mapping is an
association list; its order models Go's map iteration order. -/
inductive Yaml where
  | str (s : String)
  | bool (b : Bool)
  | int (n : Int)
  | list (items : List Yaml)
  | map (entries : List (String × Yaml))
  | null

/-- Go map lookup `m[k]` on an association list (first binding wins;
genuine Go maps have unique keys). -/
def lookupY (k : String) : List (String × Yaml) → Option Yaml
  | [] => none
  | (k', v) :: rest => if k' = k then some v else lookupY k rest

/-- Go type assertion `v.(string)`. -/
def yamlString : Yaml → Option String
  | .str s => some s
  | _ => none

/-- `schema[k].(string)`: lookup plus string type assertion. -/
def lookupStr (k : String) (schema : List (String × Yaml)) : Option String :=
  match lookupY k schema with
  | some (.str s) => some s
  | _ => none

/-- `schema[k].([]interface{})`: lookup plus slice type assertion. -/
def lookupListY (k : String) (schema : List (String × Yaml)) : Option (List Yaml) :=
  match lookupY k schema with
  | some (.list xs) => some xs
  | _ => none

/-- `schema[k].(map[string]interface{})`: lookup plus map type assertion. -/
def lookupMapY (k : String) (schema : List (String × Yaml)) :
    Option (List (String × Yaml)) :=
  match lookupY k schema with
  | some (.map m) => some m
  | _ => none

/-- `schema[k].(bool)`: lookup plus bool type assertion. -/
def lookupBool (k : String) (schema : List (String × Yaml)) : Option Bool :=
  match lookupY k schema with
  | some (.bool b) => some b
  | _ => none

mutual

/-- `generator.IRType` (internal/generator/types.go together with the DTO
declarations): the closed variant set.  `objectT.dtoRef` and
`array.elementType` are Go interface/pointer fields and may be nil, hence
`Option`.  The unused `UnionType` variant (never produced by the walker) and
the unused `Metadata`/`CustomBranded` fields are omitted. -/
inductive IRType where
  | primitive (name format : String)
  | objectT (dtoRef : Option DTO) (refName : String) (inline : Bool)
  | array (elementType : Option IRType)
  | reference (refName : String)
  | enumT (name underlyingType : String) (values : List String)

/-- `generator.DTO`: name, description, properties, required set,
kind (`"object"`, `"enum"`, or `""`), enum values. -/
inductive DTO where
  | mk (name description : String) (properties : List Property)
      (required : List String) (dtype : String) (enumValues : List String)

/-- `generator.Property`.  `type` is a Go interface value and may be nil. -/
inductive Property where
  | mk (name : String) (type : Option IRType) (description : String)
      (nullable required : Bool)

end

def DTO.name : DTO → String
  | .mk n _ _ _ _ _ => n

def DTO.description : DTO → String
  | .mk _ d _ _ _ _ => d

def DTO.properties : DTO → List Property
  | .mk _ _ p _ _ _ => p

def DTO.required : DTO → List String
  | .mk _ _ _ r _ _ => r

def DTO.dtype : DTO → String
  | .mk _ _ _ _ t _ => t

def DTO.enumValues : DTO → List String
  | .mk _ _ _ _ _ e => e

def Property.name : Property → String
  | .mk n _ _ _ _ => n

def Property.type : Property → Option IRType
  | .mk _ t _ _ _ => t

def Property.description : Property → String
  | .mk _ _ d _ _ => d

def Property.nullable : Property → Bool
  | .mk _ _ _ n _ => n

def Property.required : Property → Bool
  | .mk _ _ _ _ r => r

/-- The membership loop shared by `convertSchemaToGeneratorProperty` (main.go)
and `isRequired` (typescript/generator.go): linear scan with early exit. -/
def isRequired (propName : String) : List String → Bool
  | [] => false
  | r :: rest => if r = propName then true else isRequired propName rest

/-- `extractRefName` (main.go): `strings.Split(ref, "/")` and take the last
element, i.e. the suffix after the last `'/'` (the whole string if none). -/
def extractRefName (ref : String) : String :=
  String.mk ((ref.data.reverse.takeWhile (fun c => c ≠ '/')).reverse)

/-- Go's `isSeparator` restricted to ASCII: letters, digits and `_` are
word-internal; every other ASCII character separates words. -/
def goIsSeparator (c : Char) : Bool :=
  !(c.isAlpha || c.isDigit || c == '_')

/-- `strings.Title` as used in main.go, restricted to ASCII: a rune whose
predecessor is a separator (`isSeparator`; the initial predecessor is a
space) is title-cased, which for ASCII is `toUpper`. -/
def goTitleAux (prevSep : Bool) : List Char → List Char
  | [] => []
  | c :: cs => (if prevSep then c.toUpper else c) :: goTitleAux (goIsSeparator c) cs

def goTitle (s : String) : String :=
  String.mk (goTitleAux true s.data)

theorem sizeOf_lookupY {k : String} :
    ∀ {l : List (String × Yaml)} {v : Yaml}, lookupY k l = some v →
      sizeOf v < sizeOf l := by
  intro l
  induction l with
  | nil => intro v h; simp [lookupY] at h
  | cons hd tl ih =>
    intro v h
    obtain ⟨k', v'⟩ := hd
    simp only [lookupY] at h
    split at h
    · cases h
      simp only [List.cons.sizeOf_spec, Prod.mk.sizeOf_spec]
      omega
    · have := ih h
      simp only [List.cons.sizeOf_spec]
      omega

theorem sizeOf_lookupMapY {k : String} {l m : List (String × Yaml)}
    (h : lookupMapY k l = some m) : sizeOf m < sizeOf l := by
  simp only [lookupMapY] at h
  split at h
  · cases h
    rename_i heq
    have := sizeOf_lookupY heq
    simp only [Yaml.map.sizeOf_spec] at this
    omega
  · cases h

mutual

/-- `convertSchemaToGeneratorDTO` (main.go): enum schemas become enum DTOs
(string entries only, declaration order); object schemas collect `required`
and convert `properties` in lexicographically sorted name order (the source
collects the map's keys and runs `sort.Strings` on them; `sort.Strings` is
modelled by `List.insertionSort`, which likewise returns the sorted
permutation). -/
def convertSchemaToGeneratorDTO (name : String)
    (schema : List (String × Yaml)) : DTO :=
  let description := (lookupStr "description" schema).getD ""
  match lookupListY "enum" schema with
  | some enumVals =>
      DTO.mk name description [] [] "enum" (enumVals.filterMap yamlString)
  | none =>
      let required :=
        match lookupListY "required" schema with
        | some req => req.filterMap yamlString
        | none => []
      if lookupStr "type" schema = some "object" then
        match hp : lookupMapY "properties" schema with
        | some props =>
            let propNames :=
              List.insertionSort (fun a b : String => a ≤ b)
                (props.map Prod.fst)
            DTO.mk name description (convertProperties props propNames required)
              required "object" []
        | none => DTO.mk name description [] required "object" []
      else
        DTO.mk name description [] required "" []
termination_by (sizeOf schema, 0, 0)
decreasing_by
  exact Prod.Lex.left _ _ (sizeOf_lookupMapY hp)

/-- The property loop of `convertSchemaToGeneratorDTO`: walk the sorted
property names, look each up in the `properties` mapping, and convert those
entries that are mappings (non-mapping entries are silently skipped). -/
def convertProperties (props : List (String × Yaml)) (names : List String)
    (required : List String) : List Property :=
  match names with
  | [] => []
  | n :: rest =>
      match hl : lookupMapY n props with
      | some propSchema =>
          convertSchemaToGeneratorProperty n propSchema required ::
            convertProperties props rest required
      | none => convertProperties props rest required
termination_by (sizeOf props, 2, names.length)
decreasing_by
  · exact Prod.Lex.left _ _ (sizeOf_lookupMapY hl)
  · exact Prod.Lex.right _ (Prod.Lex.right _ (by simp [List.length_cons]))
  · exact Prod.Lex.right _ (Prod.Lex.right _ (by simp [List.length_cons]))

/-- The type-determination chain of `convertSchemaToGeneratorProperty`
(main.go): enum first, then the `type` switch, then the `$ref` fallback,
then the unknown primitive.  `none` is the one path that leaves `prop.Type`
nil: an array node whose `items` entry is missing or not a mapping.  The
array case reads the recursively converted item property's type
(`itemProp.Type`), which is exactly this function on the `items` node. -/
def convertPropType (name : String) (schema : List (String × Yaml)) :
    Option IRType :=
  match lookupListY "enum" schema with
  | some enumVals =>
      some (.enumT (goTitle name ++ "Enum")
        ((lookupStr "type" schema).getD "string")
        (enumVals.filterMap yamlString))
  | none =>
      match lookupStr "type" schema with
      | some t =>
          if t = "string" then
            some (.primitive "string" ((lookupStr "format" schema).getD ""))
          else if t = "number" then some (.primitive t "")
          else if t = "integer" then some (.primitive t "")
          else if t = "boolean" then some (.primitive "boolean" "")
          else if t = "array" then
            match hi : lookupMapY "items" schema with
            | some items => some (.array (convertPropType (name ++ "Item") items))
            | none => none
          else if t = "object" then
            match lookupStr "$ref" schema with
            | some ref => some (.reference (extractRefName ref))
            | none =>
                some (.objectT
                  (some (convertSchemaToGeneratorDTO name schema)) "" true)
          else some (.primitive t "")
      | none =>
          match lookupStr "$ref" schema with
          | some ref => some (.reference (extractRefName ref))
          | none => some (.primitive "unknown" "")
termination_by (sizeOf schema, 1, 0)
decreasing_by
  · exact Prod.Lex.left _ _ (sizeOf_lookupMapY hi)
  · exact Prod.Lex.right _ (Prod.Lex.left _ _ (by omega))

/-- `convertSchemaToGeneratorProperty` (main.go).  Every branch of the Go
function fills the same `Name`, `Description`, `Nullable` and `Required`
fields (required = membership scan, description/nullable from the node) and
differs only in `Type`, which is factored into `convertPropType`. -/
def convertSchemaToGeneratorProperty (name : String)
    (schema : List (String × Yaml)) (required : List String) : Property :=
  Property.mk name (convertPropType name schema)
    ((lookupStr "description" schema).getD "")
    ((lookupBool "nullable" schema).getD false)
    (isRequired name required)
termination_by (sizeOf schema, 2, 0)
decreasing_by
  exact Prod.Lex.right _ (Prod.Lex.left _ _ (by omega))

end

/-! ## The Zod dialect: custom type registry (zod custom_types.go) -/

/-- `zod.CustomTypeMapping`: how a format maps to a Zod expression, a
TypeScript type and an import statement. -/
structure CustomTypeMapping where
  zodType : String
  typeScriptType : String
  importStatement : String

/-- `zod.OutputConfig` (Go struct; `""` is the zero value of an absent
YAML field). -/
structure OutputConfig where
  folder : String
  mode : String
  singleFileName : String

/-- `zod.GenerationConfig` (Go struct; `false` is the zero value of an
absent YAML field). -/
structure GenerationConfig where
  generatePackageJson : Bool
  generateHelpers : Bool

/-- `zod.CustomTypeRegistry`: the format table plus output/generation
policy.  The Go `map[string]CustomTypeMapping` is modelled as a total
function to `Option` since the registry is only ever read pointwise. -/
structure CustomTypeRegistry where
  mappings : String → Option CustomTypeMapping
  output : OutputConfig
  generation : GenerationConfig

/-- `addDefaultMappings` (zod custom_types.go): the six built-in formats. -/
def defaultZodMappings : String → Option CustomTypeMapping := fun f =>
  if f = "date-time" then some ⟨"z.string().datetime()", "string", ""⟩
  else if f = "uuid" then some ⟨"z.string().uuid()", "string", ""⟩
  else if f = "email" then some ⟨"z.string().email()", "string", ""⟩
  else if f = "uri" then some ⟨"z.string().url()", "string", ""⟩
  else if f = "url" then some ⟨"z.string().url()", "string", ""⟩
  else if f = "date" then some ⟨"z.string().date()", "string", ""⟩
  else none

/-- `NewCustomTypeRegistry` (zod custom_types.go): defaults. -/
def newCustomTypeRegistry : CustomTypeRegistry where
  mappings := defaultZodMappings
  output := { folder := "./generated", mode := "multiple", singleFileName := "schemas.ts" }
  generation := { generatePackageJson := true, generateHelpers := true }

/-- `Register`: monotonic overwrite of one format's mapping. -/
def CustomTypeRegistry.register (r : CustomTypeRegistry) (format : String)
    (m : CustomTypeMapping) : CustomTypeRegistry :=
  { r with mappings := fun f => if f = format then some m else r.mappings f }

/-- `Get`: pointwise lookup. -/
def CustomTypeRegistry.get (r : CustomTypeRegistry) (format : String) :
    Option CustomTypeMapping :=
  r.mappings format

/-- `IsSingleFileMode`. -/
def CustomTypeRegistry.isSingleFileMode (r : CustomTypeRegistry) : Bool :=
  r.output.mode = "single"

/-- `GetSingleFileName`. -/
def CustomTypeRegistry.getSingleFileName (r : CustomTypeRegistry) : String :=
  if r.output.singleFileName = "" then "schemas.ts" else r.output.singleFileName

/-- The base validation-library import of the Zod dialect. -/
def zodBaseImport : String := "import { z } from 'zod';"

/-- The collection loop of `GetAllImports`: walk the used formats, keep the
non-empty import statement of each registered format, skipping exact-string
duplicates (the Go `importSet` map is modelled by the `seen` list). -/
def collectCustomImports (mappings : String → Option CustomTypeMapping)
    (seen : List String) : List String → List String
  | [] => []
  | f :: rest =>
      match mappings f with
      | some m =>
          if m.importStatement ≠ "" then
            if m.importStatement ∈ seen then
              collectCustomImports mappings seen rest
            else
              m.importStatement ::
                collectCustomImports mappings (m.importStatement :: seen) rest
          else collectCustomImports mappings seen rest
      | none => collectCustomImports mappings seen rest

/-- `GetAllImports` (zod custom_types.go): the Zod base import first, then
the deduplicated custom imports sorted alphabetically (`sort.Strings`,
modelled by `List.insertionSort`). -/
def CustomTypeRegistry.getAllImports (r : CustomTypeRegistry)
    (usedFormats : List String) : List String :=
  zodBaseImport ::
    List.insertionSort (fun a b : String => a ≤ b)
      (collectCustomImports r.mappings [] usedFormats)

/-! ## Config documents and `LoadFromConfig` (zod custom_types.go) -/

/-- The `output` block of the YAML config document with field presence
explicit (`none` = key absent from the document). -/
structure OutputConfigDoc where
  folder : Option String
  mode : Option String
  singleFileName : Option String

/-- The `generation` block of the YAML config document with field presence
explicit. -/
structure GenerationConfigDoc where
  generatePackageJson : Option Bool
  generateHelpers : Option Bool

/-- The `typescript-zod` section of the config document as written in YAML,
with block/field presence explicit.  `customTypes` is an association list in
map iteration order. -/
structure ZodConfigDoc where
  output : Option OutputConfigDoc
  customTypes : List (String × CustomTypeMapping)
  generation : Option GenerationConfigDoc

/-- yaml.v3 decoding of the `output` block into the Go struct: an absent
block or field decodes to zero values (`""`). -/
def goDecodeOutput : Option OutputConfigDoc → OutputConfig
  | none => ⟨"", "", ""⟩
  | some d => ⟨d.folder.getD "", d.mode.getD "", d.singleFileName.getD ""⟩

/-- yaml.v3 decoding of the `generation` block into the Go struct: an absent
block or field decodes to zero values (`false`).  This is where explicit
`false` and absence collapse to the same Go value. -/
def goDecodeGeneration : Option GenerationConfigDoc → GenerationConfig
  | none => ⟨false, false⟩
  | some d => ⟨d.generatePackageJson.getD false, d.generateHelpers.getD false⟩

/-- `zod.ZodCustomTypeConfig` after yaml.v3 decoding. -/
structure ZodSectionGo where
  output : OutputConfig
  customTypes : List (String × CustomTypeMapping)
  generation : GenerationConfig

/-- Decode a YAML config document into the Go struct (yaml.v3 semantics). -/
def goDecodeZodConfig (d : ZodConfigDoc) : ZodSectionGo :=
  ⟨goDecodeOutput d.output, d.customTypes, goDecodeGeneration d.generation⟩

/-- The state of the config file named by `Config.configFile`: absent on
disk (`os.Stat` fails with not-exist), present but not valid YAML, or
present and decoded into the `typescript-zod` section. -/
inductive ConfigFile where
  | missing
  | unparsable
  | parsed (config : ZodSectionGo)

def invalidModeMsg (m : String) : String :=
  "invalid output mode '" ++ m ++ "', must be 'multiple' or 'single'"

/-- The `output` part of `LoadFromConfig`: each field replaces the default
only when non-empty; a non-empty mode other than multiple/single is a hard
error.  (In Go the folder assignment mutates the registry before the mode
error is raised; the caller discards the registry on error, so returning
the unmodified registry on error is observably the same.) -/
def loadOutputConfig (out c : OutputConfig) : Except String OutputConfig :=
  if c.folder = "" ∧ c.mode = "" ∧ c.singleFileName = "" then .ok out
  else
    let o1 := if c.folder ≠ "" then { out with folder := c.folder } else out
    if c.mode ≠ "" then
      if c.mode ≠ "multiple" ∧ c.mode ≠ "single" then
        .error (invalidModeMsg c.mode)
      else
        let o2 := { o1 with mode := c.mode }
        .ok (if c.singleFileName ≠ "" then
          { o2 with singleFileName := c.singleFileName } else o2)
    else
      .ok (if c.singleFileName ≠ "" then
        { o1 with singleFileName := c.singleFileName } else o1)

/-- The `customTypes` loop of `LoadFromConfig`: `Register` every entry. -/
def registerAll (r : CustomTypeRegistry) :
    List (String × CustomTypeMapping) → CustomTypeRegistry
  | [] => r
  | (f, m) :: rest => registerAll (r.register f m) rest

/-- `LoadFromConfig` (zod custom_types.go): a missing file is not an error
and leaves the registry untouched; an unparsable file is an error; otherwise
the output block is applied field-by-field when present, the generation
struct is assigned unconditionally (source lines 589-590 — note the absence
of any presence check, unlike the output block), and every configured custom
type is registered. -/
def CustomTypeRegistry.loadFromConfig (r : CustomTypeRegistry) :
    ConfigFile → Except String CustomTypeRegistry
  | .missing => .ok r
  | .unparsable => .error "failed to parse config file"
  | .parsed c =>
      match loadOutputConfig r.output c.output with
      | .error e => .error e
      | .ok out =>
          let r1 := { r with output := out, generation := c.generation }
          .ok (registerAll r1 c.customTypes)

/-! ## Type-to-code mapping (zod generator.go) -/

/-- `stringWithFormat` (zod generator.go): custom mapping first, then the
built-in Zod formats, then the annotated fallback. -/
def stringWithFormat (mappings : String → Option CustomTypeMapping)
    (format : String) : String :=
  match mappings format with
  | some m => m.zodType
  | none =>
      if format = "email" then "z.string().email()"
      else if format = "uuid" then "z.string().uuid()"
      else if format = "uri" then "z.string().url()"
      else if format = "url" then "z.string().url()"
      else if format = "date-time" then "z.string().datetime()"
      else if format = "date" then "z.string().date()"
      else if format = "" then "z.string()"
      else "z.string() /* format: " ++ format ++ " */"

/-- `primitiveToZod` (zod generator.go). -/
def primitiveToZod (mappings : String → Option CustomTypeMapping)
    (name format : String) : String :=
  if name = "string" then stringWithFormat mappings format
  else if name = "number" then "z.number()"
  else if name = "integer" then "z.number()"
  else if name = "boolean" then "z.boolean()"
  else "z.unknown()"

/-- The enum literal list `'a', 'b', ...` built by `toZodType`. -/
def zodEnumLiterals (values : List String) : String :=
  String.intercalate ", " (values.map (fun v => "'" ++ v ++ "'"))

/-- The `switch t := irType.(type)` block of `toZodType` (zod generator.go):
the base expression from the IR variant (a nil interface hits the `default`
branch).  The source's array case calls `toZodType(t.ElementType, false,
false)`, which with both modifier flags false is exactly this base
computation, hence the direct recursion here. -/
def zodBaseType (mappings : String → Option CustomTypeMapping) :
    Option IRType → String
  | some (.primitive n f) => primitiveToZod mappings n f
  | some (.array elem) =>
      "z.array(" ++ zodBaseType mappings elem ++ ")"
  | some (.reference rn) => rn ++ "Schema"
  | some (.enumT _ _ values) =>
      "z.enum([" ++ zodEnumLiterals values ++ "])"
  | some (.objectT _ rn _) =>
      if rn ≠ "" then rn ++ "Schema" else "z.record(z.unknown())"
  | none => "z.unknown()"

/-- `toZodType` (zod generator.go): the base expression, then `.nullable()`
if nullable, then `.optional()` if optional. -/
def toZodType (mappings : String → Option CustomTypeMapping)
    (t : Option IRType) (nullable optional : Bool) : String :=
  let baseType := zodBaseType mappings t
  let withNullable := if nullable then baseType ++ ".nullable()" else baseType
  if optional then withNullable ++ ".optional()" else withNullable

/-- Modelled from the spec: the Zod DTO template (a `templates.go` file that
is not under src) renders each object field by calling `toZodType` with the
property's type, its nullable flag, and optional = not required (§4.4:
"absent from required ⇒ optional-wrapped"; the template function map exposes
`toZodType` and `not` for exactly this call). -/
def renderZodProperty (mappings : String → Option CustomTypeMapping)
    (p : Property) : String :=
  toZodType mappings p.type p.nullable (!p.required)

/-! ## The Zod generator driver (zod generator.go) -/

/-- `generator.Config` (internal/generator). -/
structure Config where
  outputFolder : String
  packageName : String
  targetLanguage : String
  configFile : String

/-- `toKebabCase` (zod generator.go): insert `-` before every interior
ASCII uppercase letter (the source checks `'A' <= r && r <= 'Z'`), then
lower-case everything.  The final `strings.ToLower` is Unicode-aware in Go;
`Char.toLower` covers its ASCII behaviour, which is all the properties
proved here depend on (the `.ts` suffix and determinism). -/
def toKebabCaseAux : Bool → List Char → List Char
  | _, [] => []
  | isFirst, c :: cs =>
      (if !isFirst && 'A' ≤ c && c ≤ 'Z' then ['-', c] else [c]) ++
        toKebabCaseAux false cs

def toKebabCase (s : String) : String :=
  String.mk ((toKebabCaseAux true s.data).map Char.toLower)

/-- `getPackageName` (zod generator.go). -/
def getPackageName (packageName : String) : String :=
  if packageName ≠ "" then packageName else "generated-zod-schemas"

/-- `getUsedFormatsInDTO` (zod generator.go): formats of the DTO's own
top-level primitive properties, first occurrence order, deduplicated
(the Go `formatSet` map is modelled by the `seen` list). -/
def getUsedFormatsAux (seen : List String) : List Property → List String
  | [] => []
  | p :: ps =>
      match p.type with
      | some (.primitive _ f) =>
          if f ≠ "" ∧ f ∉ seen then f :: getUsedFormatsAux (f :: seen) ps
          else getUsedFormatsAux seen ps
      | _ => getUsedFormatsAux seen ps

def getUsedFormatsInDTO (dto : DTO) : List String :=
  getUsedFormatsAux [] dto.properties

/-- `calculateImports` (zod generator.go). -/
def calculateImports (r : CustomTypeRegistry) (dto : DTO) : List String :=
  r.getAllImports (getUsedFormatsInDTO dto)

/-- `sortDTOsByDependency` (zod generator.go, identical in
typescript/generator.go): alphabetical sort by DTO name.  Go's unstable
`sort.Slice` returns a permutation sorted by name; it is modelled by
`List.insertionSort`, which returns such a permutation. -/
def sortDTOsByDependency (dtos : List DTO) : List DTO :=
  List.insertionSort (fun a b => a.name ≤ b.name) dtos

/-- Modelled from the spec: the per-DTO file body (dtoTemplate, not under
src) — schema constant plus inferred type, enum DTOs as `z.enum`. -/
def renderZodDTOBody (mappings : String → Option CustomTypeMapping)
    (dto : DTO) : String :=
  if dto.dtype = "enum" then
    "export const " ++ dto.name ++ "Schema = z.enum([" ++
      zodEnumLiterals dto.enumValues ++ "]);\n" ++
      "export type " ++ dto.name ++ " = z.infer<typeof " ++ dto.name ++
      "Schema>;\n"
  else
    "export const " ++ dto.name ++ "Schema = z.object(\x7b\n" ++
      String.intercalate ",\n"
        (dto.properties.map (fun p =>
          "  " ++ p.name ++ ": " ++ renderZodProperty mappings p)) ++
      "\n\x7d);\n" ++
      "export type " ++ dto.name ++ " = z.infer<typeof " ++ dto.name ++
      "Schema>;\n"

/-- Modelled from the spec: a per-DTO module file (dtoTemplate) — the
per-DTO imports followed by the body. -/
def renderZodDTOFile (r : CustomTypeRegistry) (dto : DTO) : String :=
  String.intercalate "\n" (calculateImports r dto) ++ "\n\n" ++
    renderZodDTOBody r.mappings dto

/-- Modelled from the spec: the index file (indexTemplate) — re-export every
per-DTO module in the given (sorted) order. -/
def renderIndexFile (dtos : List DTO) : String :=
  String.join (dtos.map (fun d =>
    "export * from './" ++ toKebabCase d.name ++ "';\n")) ++
    "export \x7b z \x7d from 'zod';\n"

/-- Modelled from the spec: the single-file layout (singleFileTemplate) —
all DTO bodies concatenated in the given (sorted) order, plus the helper
functions when enabled. -/
def renderSingleFile (r : CustomTypeRegistry) (dtos : List DTO)
    (generateHelpers : Bool) : String :=
  zodBaseImport ++ "\n\n" ++
    String.intercalate "\n" (dtos.map (renderZodDTOBody r.mappings)) ++
    (if generateHelpers then
      "\nexport const validateData = (schema, data) => schema.parse(data);\n"
    else "")

/-- Modelled from the spec: the package manifest body (packageJSONTemplate)
— a package.json naming the Zod dependency. -/
def renderPackageJSON (packageName : String) : String :=
  "\x7b\n  \"name\": \"" ++ packageName ++
    "\",\n  \"version\": \"1.0.0\",\n  \"dependencies\": \x7b\n    \"zod\": \"^3.22.4\"\n  \x7d\n\x7d\n"

/-- The output directory as a file system: path → contents. -/
def FS := String → Option String

/-- `os.Create` + template execution: (over)write one file. -/
def writeFileFS (fs : FS) (path content : String) : FS :=
  fun p => if p = path then some content else fs p

/-- `filepath.Join` for a directory and a simple file name (path cleaning
is irrelevant for the properties proved here). -/
def pathJoin (dir file : String) : String := dir ++ "/" ++ file

/-- `generatePackageJSON` (zod generator.go): if `os.Stat` finds an existing
file, return nil without writing; otherwise create the manifest. -/
def generatePackageJSON (fs : FS) (outputFolder packageName : String) : FS :=
  let path := pathJoin outputFolder "package.json"
  match fs path with
  | some _ => fs
  | none => writeFileFS fs path (renderPackageJSON (getPackageName packageName))

/-- The files emitted by `Generate` before the manifest step: single-file
mode writes one concatenated file; multiple mode writes index.ts plus one
file per DTO (in the Go loop order: index first, then each sorted DTO). -/
def zodFilePlan (r : CustomTypeRegistry) (dtos : List DTO) (config : Config) :
    List (String × String) :=
  if r.isSingleFileMode then
    [(pathJoin config.outputFolder r.getSingleFileName,
      renderSingleFile r dtos r.generation.generateHelpers)]
  else
    (pathJoin config.outputFolder "index.ts", renderIndexFile dtos) ::
      dtos.map (fun d =>
        (pathJoin config.outputFolder (toKebabCase d.name ++ ".ts"),
          renderZodDTOFile r d))

def writeAll (fs : FS) (files : List (String × String)) : FS :=
  files.foldl (fun acc pc => writeFileFS acc pc.1 pc.2) fs

/-- The registry-construction phase of `Generate` (zod generator.go):
a fresh default registry, overlaid with the config file when
`config.ConfigFile` is set; a load error is wrapped with the config path. -/
def zodLoadRegistry (config : Config) (cfgFile : ConfigFile) :
    Except String CustomTypeRegistry :=
  if config.configFile ≠ "" then
    match newCustomTypeRegistry.loadFromConfig cfgFile with
    | .error e =>
        .error ("failed to load custom types config from " ++
          config.configFile ++ ": " ++ e)
    | .ok r => .ok r
  else .ok newCustomTypeRegistry

/-- `Generate` (zod generator.go): build the registry, load the optional
config (propagating its error wrapped with the config path before any file
is created), sort the DTOs, write the planned files, and finally emit the
package manifest when the toggle is on. -/
def zodGenerate (dtos : List DTO) (config : Config) (cfgFile : ConfigFile)
    (fs : FS) : Except String FS :=
  match zodLoadRegistry config cfgFile with
  | .error e => .error e
  | .ok r =>
      let sortedDTOs := sortDTOsByDependency dtos
      let fs1 := writeAll fs (zodFilePlan r sortedDTOs config)
      let fs2 :=
        if r.generation.generatePackageJson then
          generatePackageJSON fs1 config.outputFolder config.packageName
        else fs1
      .ok fs2

/-! ## Helper lemmas -/

theorem self_ne_append_optional (s : String) : s ≠ s ++ ".optional()" := by
  intro h
  have hlen := congrArg String.length h
  rw [String.length_append] at hlen
  simp at hlen
  exact absurd hlen (by decide)

theorem isRequired_eq_true_iff (n : String) (l : List String) :
    isRequired n l = true ↔ n ∈ l := by
  induction l with
  | nil => simp [isRequired]
  | cons r rest ih =>
    simp only [isRequired, List.mem_cons]
    by_cases hr : r = n
    · simp [hr]
    · simp only [hr, if_false, ih]
      constructor
      · exact Or.inr
      · rintro (h | h)
        · exact absurd h.symm hr
        · exact h

theorem toZodType_optional (m : String → Option CustomTypeMapping)
    (t : Option IRType) (n : Bool) :
    toZodType m t n true = toZodType m t n false ++ ".optional()" := by
  simp [toZodType]

theorem toZodType_stack (m : String → Option CustomTypeMapping)
    (t : Option IRType) (n o : Bool) :
    toZodType m t n o
      = toZodType m t false false
          ++ (if n then ".nullable()" else "")
          ++ (if o then ".optional()" else "") := by
  cases n <;> cases o <;> simp [toZodType]

/-! ## C2: required/optional and nullable modifiers -/

/-- C2: for a property whose `required` flag agrees with membership of its
name in the owning DTO's required set (the invariant the walker establishes,
see the third conjunct), the rendered Zod expression is optional-wrapped
exactly when the name is not in the required set; the base expression never
changes, the nullable flag independently appends the null-accepting wrapper,
and the two wrappers stack (base, then `.nullable()`, then `.optional()`). -/
theorem zod_required_optional_correctness
    (m : String → Option CustomTypeMapping) (dto : DTO) (p : Property)
    (h : p.required = isRequired p.name dto.required) :
    (renderZodProperty m p
        = toZodType m p.type p.nullable false ++ ".optional()"
      ↔ p.name ∉ dto.required)
    ∧ (∀ t n o, toZodType m t n o
        = toZodType m t false false
            ++ (if n then ".nullable()" else "")
            ++ (if o then ".optional()" else ""))
    ∧ (∀ name schema req,
        (convertSchemaToGeneratorProperty name schema req).required
          = isRequired name req) := by
  refine ⟨?_, fun t n o => toZodType_stack m t n o, ?_⟩
  · unfold renderZodProperty
    rcases hreq : p.required with _ | _
    · rw [h] at hreq
      simp only [hreq, Bool.not_false, toZodType_optional]
      have : p.name ∉ dto.required := by
        intro hmem
        rw [(isRequired_eq_true_iff p.name dto.required).mpr hmem] at hreq
        cases hreq
      simp [this]
    · rw [h] at hreq
      simp only [hreq, Bool.not_true]
      have hmem : p.name ∈ dto.required := (isRequired_eq_true_iff _ _).mp hreq
      constructor
      · intro habs
        exact absurd habs (self_ne_append_optional _)
      · intro habs
        exact absurd hmem habs
  · intro name schema req
    simp [convertSchemaToGeneratorProperty, Property.required]

/-- Witness for C2 at the spec's end-to-end example: `email` is absent from
`User.required`, so its rendered expression is the email validator
optional-wrapped. -/
theorem zod_required_optional_correctness_witness :
    renderZodProperty defaultZodMappings
        (Property.mk "email" (some (.primitive "string" "email")) "" false false)
      = "z.string().email().optional()" := by
  have h := (zod_required_optional_correctness defaultZodMappings
    (DTO.mk "User" "" [] ["id", "name"] "object" [])
    (Property.mk "email" (some (.primitive "string" "email")) "" false false)
    (by decide)).1
  rw [h.mpr (by decide)]
  simp [toZodType, zodBaseType, primitiveToZod, stringWithFormat,
    defaultZodMappings, Property.nullable, Property.type]

/-! ## C5: import resolution -/

theorem mem_collectCustomImports (M : String → Option CustomTypeMapping) :
    ∀ (fmts seen : List String) (s : String),
      s ∈ collectCustomImports M seen fmts
        ↔ s ∉ seen ∧ s ≠ "" ∧
            ∃ f ∈ fmts, ∃ mp, M f = some mp ∧ mp.importStatement = s := by
  intro fmts
  induction fmts with
  | nil => simp [collectCustomImports]
  | cons f rest ih =>
    intro seen s
    simp only [collectCustomImports]
    cases hf : M f with
    | none =>
      rw [ih]
      constructor
      · rintro ⟨h1, h2, f', hf', hmp⟩
        exact ⟨h1, h2, f', List.mem_cons_of_mem f hf', hmp⟩
      · rintro ⟨h1, h2, f', hf'mem, mp, hmp, hs⟩
        rcases List.mem_cons.mp hf'mem with rfl | hmem
        · rw [hf] at hmp; cases hmp
        · exact ⟨h1, h2, f', hmem, mp, hmp, hs⟩
    | some mp =>
      by_cases hemp : mp.importStatement = ""
      · simp only [hemp, ne_eq, not_true_eq_false, if_false]
        rw [ih]
        constructor
        · rintro ⟨h1, h2, f', hf', hmpw⟩
          exact ⟨h1, h2, f', List.mem_cons_of_mem f hf', hmpw⟩
        · rintro ⟨h1, h2, f', hf'mem, mp', hmp', hs⟩
          rcases List.mem_cons.mp hf'mem with rfl | hmem
          · rw [hf] at hmp'
            cases hmp'
            exact absurd (hs.symm.trans hemp) h2
          · exact ⟨h1, h2, f', hmem, mp', hmp', hs⟩
      · simp only [hemp, ne_eq, not_false_eq_true, if_true]
        by_cases hseen : mp.importStatement ∈ seen
        · simp only [hseen, if_true]
          rw [ih]
          constructor
          · rintro ⟨h1, h2, f', hf', hmpw⟩
            exact ⟨h1, h2, f', List.mem_cons_of_mem f hf', hmpw⟩
          · rintro ⟨h1, h2, f', hf'mem, mp', hmp', hs⟩
            rcases List.mem_cons.mp hf'mem with rfl | hmem
            · rw [hf] at hmp'
              cases hmp'
              exact absurd (hs ▸ hseen) h1
            · exact ⟨h1, h2, f', hmem, mp', hmp', hs⟩
        · simp only [hseen, if_false, List.mem_cons]
          constructor
          · rintro (rfl | hmm)
            · exact ⟨hseen, hemp, f, Or.inl rfl, mp, hf, rfl⟩
            · obtain ⟨h1, h2, f', hf', hmpw⟩ := (ih _ s).mp hmm
              have hs_ne : s ∉ seen := fun hc => h1 (List.mem_cons_of_mem _ hc)
              exact ⟨hs_ne, h2, f', Or.inr hf', hmpw⟩
          · rintro ⟨h1, h2, f', hf'mem, mp', hmp', hs⟩
            by_cases hsimp : s = mp.importStatement
            · exact Or.inl hsimp
            · refine Or.inr ((ih _ s).mpr ⟨?_, h2, ?_⟩)
              · intro hc
                rcases List.mem_cons.mp hc with hc1 | hc2
                · exact hsimp hc1
                · exact h1 hc2
              · rcases hf'mem with rfl | hmem
                · rw [hf] at hmp'
                  cases hmp'
                  exact absurd hs.symm hsimp
                · exact ⟨f', hmem, mp', hmp', hs⟩

theorem nodup_collectCustomImports (M : String → Option CustomTypeMapping) :
    ∀ (fmts seen : List String), (collectCustomImports M seen fmts).Nodup := by
  intro fmts
  induction fmts with
  | nil => simp [collectCustomImports]
  | cons f rest ih =>
    intro seen
    simp only [collectCustomImports]
    cases hf : M f with
    | none => exact ih seen
    | some mp =>
      by_cases hemp : mp.importStatement = ""
      · simp only [hemp, ne_eq, not_true_eq_false, if_false]
        exact ih seen
      · simp only [hemp, ne_eq, not_false_eq_true, if_true]
        by_cases hseen : mp.importStatement ∈ seen
        · simp only [hseen, if_true]
          exact ih seen
        · simp only [hseen, if_false]
          refine List.nodup_cons.mpr ⟨?_, ih _⟩
          intro hc
          have := ((mem_collectCustomImports M rest _ _).mp hc).1
          exact this (List.mem_cons_self _ _)

theorem getUsedFormatsAux_eq_nil :
    ∀ (ps : List Property) (seen : List String),
      (∀ p ∈ ps, ∃ nm, p.type = some (.primitive nm "")) →
      getUsedFormatsAux seen ps = [] := by
  intro ps
  induction ps with
  | nil => intro seen _; simp [getUsedFormatsAux]
  | cons p rest ih =>
    intro seen h
    obtain ⟨nm, hty⟩ := h p (List.mem_cons_self p rest)
    simp only [getUsedFormatsAux, hty]
    simpa using ih seen (fun q hq => h q (List.mem_cons_of_mem p hq))

/-- C5: `GetAllImports` always starts with the Zod base import; the rest is
exactly the set of non-empty import statements of the registered used
formats, duplicate-free (exact string equality) and sorted; a DTO whose
properties are all unformatted primitives yields exactly the base import. -/
theorem getAllImports_shape (r : CustomTypeRegistry) (fmts : List String) :
    (r.getAllImports fmts).head? = some zodBaseImport
    ∧ List.Sorted (fun a b : String => a ≤ b) (r.getAllImports fmts).tail
    ∧ (r.getAllImports fmts).tail.Nodup
    ∧ (∀ s, s ∈ (r.getAllImports fmts).tail ↔
        s ≠ "" ∧ ∃ f ∈ fmts, ∃ mp, r.get f = some mp ∧ mp.importStatement = s)
    ∧ (∀ dto : DTO,
        (∀ p ∈ dto.properties, ∃ nm, p.type = some (.primitive nm "")) →
        calculateImports r dto = [zodBaseImport]) := by
  refine ⟨rfl, ?_, ?_, ?_, ?_⟩
  · simp only [CustomTypeRegistry.getAllImports, List.tail_cons]
    exact List.sorted_insertionSort _ _
  · simp only [CustomTypeRegistry.getAllImports, List.tail_cons]
    exact ((List.perm_insertionSort _ _).nodup_iff).mpr
      (nodup_collectCustomImports r.mappings fmts [])
  · intro s
    simp only [CustomTypeRegistry.getAllImports, List.tail_cons]
    rw [(List.perm_insertionSort _ _).mem_iff,
      mem_collectCustomImports r.mappings fmts [] s]
    simp [CustomTypeRegistry.get]
  · intro dto h
    simp only [calculateImports, getUsedFormatsInDTO,
      getUsedFormatsAux_eq_nil dto.properties [] h,
      CustomTypeRegistry.getAllImports, collectCustomImports,
      List.insertionSort]

/-- Witness for C5: a DTO with only unformatted primitive properties
resolves to exactly the single Zod base import. -/
theorem getAllImports_shape_witness :
    calculateImports newCustomTypeRegistry
        (DTO.mk "Plain" ""
          [Property.mk "id" (some (.primitive "string" "")) "" false true,
           Property.mk "age" (some (.primitive "integer" "")) "" false false]
          ["id"] "object" [])
      = [zodBaseImport] := by
  refine (getAllImports_shape newCustomTypeRegistry []).2.2.2.2 _ ?_
  intro p hp
  rcases List.mem_cons.mp hp with rfl | hp2
  · exact ⟨"string", rfl⟩
  · rcases List.mem_cons.mp hp2 with rfl | hp3
    · exact ⟨"integer", rfl⟩
    · cases hp3

/-! ## C4: invalid mode is a hard error, missing config is not -/

/-- C4: a present config document whose output mode is neither `multiple`
nor `single` makes `LoadFromConfig` fail with the invalid-mode error;
`Generate` propagates that error (wrapped with the config path) and produces
no output file system; a non-existent config file is not an error and leaves
the registry exactly as it was. -/
theorem invalid_mode_hard_error :
    (∀ (r : CustomTypeRegistry) (c : ZodSectionGo),
      c.output.mode ≠ "" → c.output.mode ≠ "multiple" → c.output.mode ≠ "single" →
      r.loadFromConfig (.parsed c) = .error (invalidModeMsg c.output.mode))
    ∧ (∀ (dtos : List DTO) (config : Config) (c : ZodSectionGo) (fs : FS),
      config.configFile ≠ "" →
      c.output.mode ≠ "" → c.output.mode ≠ "multiple" → c.output.mode ≠ "single" →
      zodGenerate dtos config (.parsed c) fs
        = .error ("failed to load custom types config from " ++
            config.configFile ++ ": " ++ invalidModeMsg c.output.mode))
    ∧ (∀ r : CustomTypeRegistry, r.loadFromConfig .missing = .ok r) := by
  have hload : ∀ (r : CustomTypeRegistry) (c : ZodSectionGo),
      c.output.mode ≠ "" → c.output.mode ≠ "multiple" → c.output.mode ≠ "single" →
      r.loadFromConfig (.parsed c) = .error (invalidModeMsg c.output.mode) := by
    intro r c h1 h2 h3
    simp [CustomTypeRegistry.loadFromConfig, loadOutputConfig, h1, h2, h3]
  refine ⟨hload, ?_, fun r => rfl⟩
  intro dtos config c fs hc h1 h2 h3
  simp [zodGenerate, zodLoadRegistry, hc,
    hload newCustomTypeRegistry c h1 h2 h3]

/-- Witness for C4 at the repository's own test input
(`mode: "invalid-mode"`), plus the missing-file case. -/
theorem invalid_mode_hard_error_witness :
    newCustomTypeRegistry.loadFromConfig
        (.parsed ⟨⟨"", "invalid-mode", ""⟩, [], ⟨false, false⟩⟩)
      = .error (invalidModeMsg "invalid-mode")
    ∧ newCustomTypeRegistry.loadFromConfig .missing = .ok newCustomTypeRegistry :=
  ⟨invalid_mode_hard_error.1 newCustomTypeRegistry
      ⟨⟨"", "invalid-mode", ""⟩, [], ⟨false, false⟩⟩
      (by decide) (by decide) (by decide),
    invalid_mode_hard_error.2.2 newCustomTypeRegistry⟩

/-! ## C3: generation toggles are clobbered by a config that omits them -/

/-- C3 (code bug in `LoadFromConfig`, zod custom_types.go lines 588-590):
the defaults set both generation toggles to `true`, yet loading a config
document that provides an output block and omits the `generation` block
entirely overwrites both toggles with the decoded zero value `false` —
the assignment is unconditional despite the "if provided" comment, unlike
the field-by-field presence checks of the output block (the folder, by
contrast, is correctly replaced). -/
theorem loadFromConfig_clobbers_generation_toggles :
    newCustomTypeRegistry.generation.generatePackageJson = true
    ∧ newCustomTypeRegistry.generation.generateHelpers = true
    ∧ ∃ r', newCustomTypeRegistry.loadFromConfig
          (.parsed (goDecodeZodConfig
            ⟨some ⟨some "./custom-output", none, none⟩, [], none⟩))
        = .ok r'
        ∧ r'.generation.generatePackageJson = false
        ∧ r'.generation.generateHelpers = false
        ∧ r'.output.folder = "./custom-output" := by
  exact ⟨rfl, rfl, _, rfl, rfl, rfl, rfl⟩

/-! ## C8: an existing package.json is never overwritten -/

theorem string_append_left_cancel {a x y : String} (h : a ++ x = a ++ y) :
    x = y := by
  have hd := congrArg String.data h
  simp only [String.data_append] at hd
  exact String.ext (List.append_cancel_left hd)

theorem ts_suffix_ne_packageJson (s : String) : s ++ ".ts" ≠ "package.json" := by
  intro h
  have hd := congrArg String.data h
  simp only [String.data_append] at hd
  have hlast := congrArg List.getLast? hd
  rw [List.getLast?_append] at hlast
  simp at hlast

theorem writeAll_apply_ne (p : String) :
    ∀ (files : List (String × String)) (fs : FS),
      (∀ pc ∈ files, pc.1 ≠ p) → writeAll fs files p = fs p := by
  intro files
  induction files with
  | nil => intro fs _; rfl
  | cons pc rest ih =>
    intro fs h
    have hstep : writeAll fs (pc :: rest) = writeAll (writeFileFS fs pc.1 pc.2) rest := rfl
    rw [hstep, ih _ (fun q hq => h q (List.mem_cons_of_mem pc hq))]
    have hne : pc.1 ≠ p := h pc (List.mem_cons_self pc rest)
    simp only [writeFileFS]
    exact if_neg (fun hc => hne hc.symm)

/-- C8 (amended): in every generation run with the package-manifest toggle
enabled, `generatePackageJSON` itself writes the manifest only when no file
exists at its path; and the whole run preserves an existing manifest's exact
content (while still succeeding) whenever the configured layout does not
aim another output file at that same path — that is, in multiple-file mode,
or in single-file mode with a single-file name other than `package.json`.
(In the excluded case the single-file `os.Create` replaces the manifest
before the only-if-absent check runs, see the counterexample.)  When no
manifest exists, the run creates one. -/
theorem generate_packageJson_only_if_absent
    (dtos : List DTO) (config : Config) (cfgFile : ConfigFile)
    (r : CustomTypeRegistry) (fs : FS) (content : String)
    (hload : zodLoadRegistry config cfgFile = .ok r)
    (htoggle : r.generation.generatePackageJson = true)
    (hnocollide : r.isSingleFileMode = false
      ∨ r.getSingleFileName ≠ "package.json") :
    (∀ fs0 : FS, fs0 (pathJoin config.outputFolder "package.json") = some content →
      generatePackageJSON fs0 config.outputFolder config.packageName = fs0)
    ∧ (fs (pathJoin config.outputFolder "package.json") = some content →
      ∃ fs', zodGenerate dtos config cfgFile fs = .ok fs'
        ∧ fs' (pathJoin config.outputFolder "package.json") = some content)
    ∧ (fs (pathJoin config.outputFolder "package.json") = none →
      ∃ fs', zodGenerate dtos config cfgFile fs = .ok fs'
        ∧ fs' (pathJoin config.outputFolder "package.json")
            = some (renderPackageJSON (getPackageName config.packageName))) := by
  have hgen : zodGenerate dtos config cfgFile fs
      = .ok (generatePackageJSON
          (writeAll fs (zodFilePlan r (sortDTOsByDependency dtos) config))
          config.outputFolder config.packageName) := by
    simp [zodGenerate, hload, htoggle]
  have hframe : writeAll fs (zodFilePlan r (sortDTOsByDependency dtos) config)
        (pathJoin config.outputFolder "package.json")
      = fs (pathJoin config.outputFolder "package.json") := by
    apply writeAll_apply_ne
    intro pc hpc
    cases hsf : r.isSingleFileMode with
    | false =>
      rw [zodFilePlan, if_neg (by simp [hsf])] at hpc
      rcases List.mem_cons.mp hpc with rfl | hmem
      · intro habs
        have := string_append_left_cancel (a := config.outputFolder ++ "/") habs
        exact absurd this (by decide)
      · obtain ⟨d, _, rfl⟩ := List.mem_map.mp hmem
        intro habs
        have := string_append_left_cancel (a := config.outputFolder ++ "/") habs
        exact ts_suffix_ne_packageJson (toKebabCase d.name) this
    | true =>
      have hname : r.getSingleFileName ≠ "package.json" := by
        rcases hnocollide with h | h
        · rw [hsf] at h; cases h
        · exact h
      rw [zodFilePlan, if_pos (by simp [hsf])] at hpc
      rcases List.mem_singleton.mp hpc with rfl
      intro habs
      exact hname (string_append_left_cancel
        (a := config.outputFolder ++ "/") habs)
  refine ⟨?_, ?_, ?_⟩
  · intro fs0 hsome
    simp [generatePackageJSON, hsome]
  · intro hsome
    refine ⟨_, hgen, ?_⟩
    have h1 := hframe.trans hsome
    simp [generatePackageJSON, h1]
  · intro hnone
    refine ⟨_, hgen, ?_⟩
    have h1 := hframe.trans hnone
    simp [generatePackageJSON, h1, writeFileFS]

/-- Witness for C8: under a loaded config with the manifest toggle on and
single-file mode writing `schemas.ts`, a pre-existing manifest with content
`"mine"` survives the run. -/
theorem generate_packageJson_only_if_absent_witness :
    ∃ fs', zodGenerate [] ⟨"out", "p", "typescript-zod", "cfg.yaml"⟩
        (.parsed ⟨⟨"", "single", "schemas.ts"⟩, [], ⟨true, true⟩⟩)
        (fun q => if q = "out/package.json" then some "mine" else none)
      = .ok fs' ∧ fs' "out/package.json" = some "mine" :=
  (generate_packageJson_only_if_absent []
    ⟨"out", "p", "typescript-zod", "cfg.yaml"⟩
    (.parsed ⟨⟨"", "single", "schemas.ts"⟩, [], ⟨true, true⟩⟩)
    ⟨defaultZodMappings, ⟨"./generated", "single", "schemas.ts"⟩, ⟨true, true⟩⟩
    (fun q => if q = "out/package.json" then some "mine" else none)
    "mine" rfl rfl (Or.inr (by decide))).2.1 (by decide)

/-- Counterexample to C8 as stated: with the manifest toggle enabled and a
config that sets single-file mode with `singleFileName: "package.json"`,
the run succeeds but replaces the existing manifest's content (`"mine"`)
with the single-file output — the single-file write happens before
`generatePackageJSON`'s only-if-absent check. -/
theorem singleFile_overwrites_packageJson_counterexample :
    ((fun q => if q = "out/package.json" then some "mine" else none : FS)
        "out/package.json" = some "mine")
    ∧ (zodGenerate [] ⟨"out", "p", "typescript-zod", "cfg.yaml"⟩
        (.parsed ⟨⟨"", "single", "package.json"⟩, [], ⟨true, true⟩⟩)
        (fun q => if q = "out/package.json" then some "mine" else none)).map
        (fun f => f "out/package.json")
      = .ok (some (renderSingleFile
          ⟨defaultZodMappings, ⟨"./generated", "single", "package.json"⟩,
            ⟨true, true⟩⟩ [] true))
    ∧ renderSingleFile
        ⟨defaultZodMappings, ⟨"./generated", "single", "package.json"⟩,
          ⟨true, true⟩⟩ [] true ≠ "mine" := by
  refine ⟨rfl, rfl, by decide⟩

/-! ## C1: determinism of generation -/

theorem sortDTOs_eq_of_perm (dtos1 dtos2 : List DTO)
    (hperm : List.Perm dtos1 dtos2)
    (hnodup : (dtos1.map DTO.name).Nodup) :
    sortDTOsByDependency dtos1 = sortDTOsByDependency dtos2 := by
  haveI : IsTotal DTO (fun a b => a.name ≤ b.name) :=
    ⟨fun a b => le_total a.name b.name⟩
  haveI : IsTrans DTO (fun a b => a.name ≤ b.name) :=
    ⟨fun _ _ _ h1 h2 => le_trans h1 h2⟩
  haveI : IsAntisymm DTO (fun a b => a.name < b.name) :=
    ⟨fun _ _ h1 h2 => ((lt_asymm h1) h2).elim⟩
  have hnodup2 : (dtos2.map DTO.name).Nodup :=
    ((hperm.map DTO.name).nodup_iff).mp hnodup
  have hstrict : ∀ (l : List DTO), (l.map DTO.name).Nodup →
      List.Sorted (fun a b : DTO => a.name ≤ b.name)
        (List.insertionSort (fun a b : DTO => a.name ≤ b.name) l) →
      List.Sorted (fun a b : DTO => a.name < b.name)
        (List.insertionSort (fun a b : DTO => a.name ≤ b.name) l) := by
    intro l hnd hs
    have hnd' : ((List.insertionSort (fun a b : DTO => a.name ≤ b.name) l).map
        DTO.name).Nodup :=
      (((List.perm_insertionSort _ l).map DTO.name).nodup_iff).mpr hnd
    have hne := (List.pairwise_map).mp hnd'
    exact (hs.and hne).imp (fun h => lt_of_le_of_ne h.1 h.2)
  have hperm' : (List.insertionSort (fun a b : DTO => a.name ≤ b.name) dtos1).Perm
      (List.insertionSort (fun a b : DTO => a.name ≤ b.name) dtos2) :=
    (List.perm_insertionSort _ dtos1).trans
      (hperm.trans (List.perm_insertionSort _ dtos2).symm)
  exact List.eq_of_perm_of_sorted hperm'
    (hstrict dtos1 hnodup (List.sorted_insertionSort _ _))
    (hstrict dtos2 hnodup2 (List.sorted_insertionSort _ _))

/-- C1: with identical configuration, config-file state and starting output
directory, two runs of `Generate` over the same DTO collection produce the
same result — the same set of files with byte-identical contents.  The DTO
list is quantified up to permutation (with the names distinct, as they are
for a Go map's keys) because the iteration order of the source's
`components.schemas` map is the one run-to-run varying input; `Generate`
sorts the DTOs by name before planning any file, which makes the output
independent of it. -/
theorem zodGenerate_deterministic (dtos1 dtos2 : List DTO) (config : Config)
    (cfgFile : ConfigFile) (fs : FS)
    (hperm : List.Perm dtos1 dtos2)
    (hnodup : (dtos1.map DTO.name).Nodup) :
    zodGenerate dtos1 config cfgFile fs = zodGenerate dtos2 config cfgFile fs := by
  simp only [zodGenerate]
  rw [sortDTOs_eq_of_perm dtos1 dtos2 hperm hnodup]

/-- Witness for C1: the two map-iteration orders of a two-schema batch
generate identical outputs. -/
theorem zodGenerate_deterministic_witness :
    zodGenerate
        [DTO.mk "B" "" [] [] "object" [], DTO.mk "A" "" [] [] "enum" ["x"]]
        ⟨"./out", "", "typescript-zod", ""⟩ .missing (fun _ => none)
      = zodGenerate
        [DTO.mk "A" "" [] [] "enum" ["x"], DTO.mk "B" "" [] [] "object" []]
        ⟨"./out", "", "typescript-zod", ""⟩ .missing (fun _ => none) :=
  zodGenerate_deterministic _ _ _ _ _
    (List.Perm.swap _ _ _) (by decide)

/-! ## C7: property lists are sorted by name -/

theorem convertProp_name (n : String) (s : List (String × Yaml))
    (r : List String) : (convertSchemaToGeneratorProperty n s r).name = n := by
  simp [convertSchemaToGeneratorProperty, Property.name]

theorem convertProperties_names_sublist (props : List (String × Yaml))
    (req : List String) :
    ∀ ns : List String,
      ((convertProperties props ns req).map Property.name).Sublist ns := by
  intro ns
  induction ns with
  | nil => simp [convertProperties]
  | cons n rest ih =>
    rw [convertProperties]
    rcases hl : lookupMapY n props with _ | ps
    · exact ih.cons n
    · simp only [List.map_cons, convertProp_name]
      exact ih.cons₂ n

theorem lookupY_perm {l1 l2 : List (String × Yaml)} (hp : l1.Perm l2) :
    (l1.map Prod.fst).Nodup → ∀ k, lookupY k l1 = lookupY k l2 := by
  induction hp with
  | nil => intro _ _; rfl
  | cons x t ih =>
    intro hnd k
    obtain ⟨a, b⟩ := x
    simp only [lookupY]
    split
    · rfl
    · exact ih ((List.nodup_cons.mp hnd).2) k
  | swap x y l =>
    intro hnd k
    obtain ⟨a, b⟩ := x
    obtain ⟨c, d⟩ := y
    have hca : c ≠ a := by
      have := (List.nodup_cons.mp hnd).1
      intro hcc
      exact this (hcc ▸ List.mem_cons_self _ _)
    simp only [lookupY]
    by_cases h1 : c = k <;> by_cases h2 : a = k <;> simp [h1, h2]
    exact absurd (h1.trans h2.symm) hca
  | trans p1 _p2 ih1 ih2 =>
    intro hnd k
    have hnd2 := ((p1.map Prod.fst).nodup_iff).mp hnd
    exact (ih1 hnd k).trans (ih2 hnd2 k)

theorem convertProperties_congr {p1 p2 : List (String × Yaml)}
    (hlk : ∀ k, lookupY k p1 = lookupY k p2) (req : List String) :
    ∀ ns : List String, convertProperties p1 ns req = convertProperties p2 ns req := by
  intro ns
  induction ns with
  | nil => rw [convertProperties, convertProperties]
  | cons n rest ih =>
    rw [convertProperties, convertProperties]
    have hmy : lookupMapY n p1 = lookupMapY n p2 := by
      simp [lookupMapY, hlk n]
    rw [hmy]
    rcases h2 : lookupMapY n p2 with _ | ps <;> simp [ih]

theorem insertionSort_strings_eq_of_perm {l1 l2 : List String}
    (h : l1.Perm l2) :
    List.insertionSort (fun a b : String => a ≤ b) l1
      = List.insertionSort (fun a b : String => a ≤ b) l2 := by
  haveI : IsAntisymm String (fun a b : String => a ≤ b) :=
    ⟨fun _ _ h1 h2 => le_antisymm h1 h2⟩
  haveI : IsTotal String (fun a b : String => a ≤ b) := ⟨fun a b => le_total a b⟩
  haveI : IsTrans String (fun a b : String => a ≤ b) :=
    ⟨fun _ _ _ h1 h2 => le_trans h1 h2⟩
  exact List.eq_of_perm_of_sorted
    ((List.perm_insertionSort _ l1).trans (h.trans (List.perm_insertionSort _ l2).symm))
    (List.sorted_insertionSort _ _) (List.sorted_insertionSort _ _)

/-- C7: every DTO the walker builds stores its property list sorted
lexicographically by property name, and the object conversion is invariant
under the iteration order of the `properties` mapping (any permutation of
the association list with the distinct keys a Go map guarantees). -/
theorem walker_properties_sorted :
    (∀ (name : String) (schema : List (String × Yaml)),
      List.Sorted (fun a b : String => a ≤ b)
        ((convertSchemaToGeneratorDTO name schema).properties.map Property.name))
    ∧ (∀ (name : String) (rest plist1 plist2 : List (String × Yaml)),
      plist1.Perm plist2 → (plist1.map Prod.fst).Nodup →
      convertSchemaToGeneratorDTO name (("properties", Yaml.map plist1) :: rest)
        = convertSchemaToGeneratorDTO name (("properties", Yaml.map plist2) :: rest)) := by
  haveI : IsTotal String (fun a b : String => a ≤ b) := ⟨fun a b => le_total a b⟩
  haveI : IsTrans String (fun a b : String => a ≤ b) :=
    ⟨fun _ _ _ h1 h2 => le_trans h1 h2⟩
  constructor
  · intro name schema
    rw [convertSchemaToGeneratorDTO]
    rcases he : lookupListY "enum" schema with _ | vals
    · by_cases ht : lookupStr "type" schema = some "object"
      · simp only [ht, if_true]
        rcases hp : lookupMapY "properties" schema with _ | props
        · simp [DTO.properties]
        · simp only [DTO.properties]
          exact List.Pairwise.sublist
            (convertProperties_names_sublist props _ _)
            (List.sorted_insertionSort _ _)
      · simp [ht, DTO.properties]
    · simp [DTO.properties]
  · intro name rest plist1 plist2 hperm hnodup
    have hlk := lookupY_perm hperm hnodup
    have key : ∀ (kk : String), "properties" ≠ kk →
        ∀ pl : List (String × Yaml),
          lookupY kk (("properties", Yaml.map pl) :: rest) = lookupY kk rest := by
      intro kk hkk pl
      simp only [lookupY]
      exact if_neg hkk
    have hstr : ∀ (kk : String), "properties" ≠ kk →
        ∀ pl : List (String × Yaml),
          lookupStr kk (("properties", Yaml.map pl) :: rest) = lookupStr kk rest := by
      intro kk hkk pl
      unfold lookupStr
      rw [key kk hkk pl]
    have hlist : ∀ (kk : String), "properties" ≠ kk →
        ∀ pl : List (String × Yaml),
          lookupListY kk (("properties", Yaml.map pl) :: rest)
            = lookupListY kk rest := by
      intro kk hkk pl
      unfold lookupListY
      rw [key kk hkk pl]
    have hmapprop : ∀ pl : List (String × Yaml),
        lookupMapY "properties" (("properties", Yaml.map pl) :: rest) = some pl := by
      intro pl
      simp [lookupMapY, lookupY]
    rw [convertSchemaToGeneratorDTO, convertSchemaToGeneratorDTO]
    simp only [hstr "description" (by decide), hstr "type" (by decide),
      hlist "enum" (by decide), hlist "required" (by decide)]
    rcases he : lookupListY "enum" rest with _ | vals
    · simp only [he]
      rcases hr : lookupListY "required" rest with _ | reqv <;>
        simp only [hr] <;>
        by_cases ht : lookupStr "type" rest = some "object" <;>
        first
          | rw [if_neg ht, if_neg ht]
          | (rw [if_pos ht, if_pos ht]
             split <;> rename_i heq <;> rw [hmapprop plist1] at heq <;> cases heq
             split <;> rename_i heq2 <;> rw [hmapprop plist2] at heq2 <;> cases heq2
             rw [insertionSort_strings_eq_of_perm (hperm.map Prod.fst),
               convertProperties_congr hlk _ _])
    · simp only [he]

/-- Witness for C7: the two iteration orders of a two-property object map
produce the same DTO (with properties in sorted order `a`, `b`). -/
theorem walker_properties_sorted_witness :
    convertSchemaToGeneratorDTO "User"
        [("properties", Yaml.map
          [("b", Yaml.map [("type", Yaml.str "string")]),
           ("a", Yaml.map [("type", Yaml.str "boolean")])]),
         ("type", Yaml.str "object")]
      = convertSchemaToGeneratorDTO "User"
        [("properties", Yaml.map
          [("a", Yaml.map [("type", Yaml.str "boolean")]),
           ("b", Yaml.map [("type", Yaml.str "string")])]),
         ("type", Yaml.str "object")] :=
  walker_properties_sorted.2 "User" [("type", Yaml.str "object")] _ _
    (List.Perm.swap _ _ _) (by decide)

/-! ## C6: `$ref` handling -/

/-- C6 (amended): for a node without an enum list and with a string `$ref`,
the walker produces `Reference{refName = trailing path segment after the
last "/"}` — without recursing into the referenced node — provided the
node's `type` key is absent, not a string, or the string `"object"`.  (The
original claim's "regardless of any type key" fails: the `type` switch runs
first and only its `object` branch consults `$ref`, see the
counterexample.) -/
theorem ref_node_yields_reference (name : String)
    (schema : List (String × Yaml)) (req : List String) (r : String)
    (henum : lookupListY "enum" schema = none)
    (href : lookupStr "$ref" schema = some r)
    (htype : lookupStr "type" schema = none
      ∨ lookupStr "type" schema = some "object") :
    (convertSchemaToGeneratorProperty name schema req).type
      = some (.reference (extractRefName r)) := by
  simp only [convertSchemaToGeneratorProperty, Property.type]
  rw [convertPropType]
  rcases htype with ht | ht <;> simp [henum, ht, href]

/-- Witness for C6 at a bare `$ref` node. -/
theorem ref_node_yields_reference_witness :
    (convertSchemaToGeneratorProperty "owner"
        [("$ref", Yaml.str "#/components/schemas/User")] []).type
      = some (.reference "User") := by
  have h := ref_node_yields_reference "owner"
    [("$ref", Yaml.str "#/components/schemas/User")] []
    "#/components/schemas/User" rfl rfl (Or.inl rfl)
  rw [h]
  have hseg : extractRefName "#/components/schemas/User" = "User" := by decide
  rw [hseg]

/-- Counterexample to C6 as stated: a node carrying both
`type: "string"` and a `$ref` resolves through the `string` branch of the
type switch — the `$ref` is ignored and a Primitive, not a Reference, is
produced. -/
theorem ref_node_with_string_type_counterexample :
    (convertSchemaToGeneratorProperty "p"
        [("type", Yaml.str "string"),
         ("$ref", Yaml.str "#/components/schemas/Foo")] []).type
      = some (IRType.primitive "string" "")
    ∧ (convertSchemaToGeneratorProperty "p"
        [("type", Yaml.str "string"),
         ("$ref", Yaml.str "#/components/schemas/Foo")] []).type
      ≠ some (IRType.reference "Foo") := by
  constructor
  · simp [convertSchemaToGeneratorProperty, Property.type, convertPropType,
      lookupListY, lookupStr, lookupMapY, lookupY]
  · simp [convertSchemaToGeneratorProperty, Property.type, convertPropType,
      lookupListY, lookupStr, lookupMapY, lookupY]

/-! ## C9: the closed-variant invariant and the array-without-items hole -/

/-- C9 (amended): the walker leaves a property's type absent in exactly one
situation — a node without an enum list whose `type` is the string
`"array"` and whose `items` entry is missing or not a mapping; in every
other case the property carries a value of exactly one of the closed
`IRType` variants.  (The original claim's "no property ever leaves the
walker with an absent type — including an array node whose items entry is
missing" fails, see the counterexample.) -/
theorem property_type_absent_iff (name : String)
    (schema : List (String × Yaml)) (req : List String) :
    (convertSchemaToGeneratorProperty name schema req).type = none
      ↔ lookupListY "enum" schema = none
        ∧ lookupStr "type" schema = some "array"
        ∧ lookupMapY "items" schema = none := by
  simp only [convertSchemaToGeneratorProperty, Property.type]
  rw [convertPropType]
  rcases he : lookupListY "enum" schema with _ | vals
  · rcases ht : lookupStr "type" schema with _ | t
    · rcases hr : lookupStr "$ref" schema with _ | r <;> simp
    · by_cases h1 : t = "string"
      · simp [h1]
      · by_cases h2 : t = "number"
        · simp [h1, h2]
        · by_cases h3 : t = "integer"
          · simp [h1, h2, h3]
          · by_cases h4 : t = "boolean"
            · simp [h1, h2, h3, h4]
            · by_cases h5 : t = "array"
              · simp only [h1, h2, h3, h4, h5, if_false, if_true]
                rcases hi : lookupMapY "items" schema with _ | items <;>
                  simp [hi, h5]
              · by_cases h6 : t = "object"
                · simp only [h1, h2, h3, h4, h5, h6, if_false, if_true]
                  rcases hr : lookupStr "$ref" schema with _ | r <;>
                    simp [h5, Ne.symm]
                · simp [h1, h2, h3, h4, h5, h6]
  · simp

/-- Counterexample to C9 as stated: an array node with no `items` entry
leaves the property's type nil. -/
theorem array_without_items_counterexample :
    (convertSchemaToGeneratorProperty "tags"
        [("type", Yaml.str "array")] []).type = none := by
  simp [convertSchemaToGeneratorProperty, Property.type, convertPropType,
    lookupListY, lookupStr, lookupMapY, lookupY]

/-! ## C10: enum entries are filtered to strings, in order, silently -/

/-- C10: when a schema node carries an enum list, the walker keeps exactly
its string entries, in declaration order, both for an enum DTO's value list
and for a property's Enum type; non-string entries are dropped with no
error (the conversion is total). -/
theorem enum_values_filtered_to_strings (name : String)
    (schema : List (String × Yaml)) (req : List String) (vals : List Yaml)
    (h : lookupListY "enum" schema = some vals) :
    (convertSchemaToGeneratorDTO name schema).enumValues
        = vals.filterMap yamlString
    ∧ (convertSchemaToGeneratorDTO name schema).dtype = "enum"
    ∧ (convertSchemaToGeneratorProperty name schema req).type
        = some (.enumT (goTitle name ++ "Enum")
            ((lookupStr "type" schema).getD "string")
            (vals.filterMap yamlString)) := by
  refine ⟨?_, ?_, ?_⟩
  · rw [convertSchemaToGeneratorDTO]
    simp [h, DTO.enumValues]
  · rw [convertSchemaToGeneratorDTO]
    simp [h, DTO.dtype]
  · simp only [convertSchemaToGeneratorProperty, Property.type]
    rw [convertPropType]
    simp [h]

/-- Witness for C10: an enum list mixing strings and a number keeps only the
strings, in order. -/
theorem enum_values_filtered_to_strings_witness :
    (convertSchemaToGeneratorDTO "Color"
        [("enum", Yaml.list
          [Yaml.str "red", Yaml.int 3, Yaml.str "blue", Yaml.bool true])]).enumValues
      = ["red", "blue"] := by
  have h := (enum_values_filtered_to_strings "Color"
    [("enum", Yaml.list
      [Yaml.str "red", Yaml.int 3, Yaml.str "blue", Yaml.bool true])] []
    [Yaml.str "red", Yaml.int 3, Yaml.str "blue", Yaml.bool true] rfl).1
  rw [h]
  simp [yamlString]

end DtoForge
